import Mathlib

/-!
Verification development for the bakers-backend service (`src/server.js` and
`src/middleware/authMiddleware.js`).

JavaScript strings are modelled as lists of characters (`Str`), so that the
string primitives the server uses (`trim`, `toLowerCase`, `split`,
`findIndex`) are structural, executable Lean functions whose behaviour the
kernel can evaluate on concrete inputs.

The DynamoDB product table is modelled as a list of `Product` records;
`PutItemCommand`, `GetItemCommand`, `DeleteItemCommand` and `ScanCommand`
become the corresponding list operations keyed on `id`.
-/

/-- Model of a JavaScript string: a sequence of characters. -/
abbrev Str := List Char

/-- Model of `String.prototype.trim`: drop leading and trailing whitespace. -/
def jsTrim (s : Str) : Str :=
  ((s.dropWhile Char.isWhitespace).reverse.dropWhile Char.isWhitespace).reverse

/-- Model of `String.prototype.toLowerCase` (ASCII case folding). -/
def jsToLower (s : Str) : Str :=
  s.map Char.toLower

/-- Model of `String.prototype.split(sep)` for a single-character separator:
`"a.b.".split('.')` is `["a","b",""]` and `"".split('.')` is `[""]`. -/
def jsSplitOn (sep : Char) : Str → List Str
  | [] => [[]]
  | c :: rest =>
    let r := jsSplitOn sep rest
    if c = sep then
      [] :: r
    else
      match r with
      | [] => [[c]]
      | h :: t => (c :: h) :: t

/-- Model of `Array.prototype.findIndex`: index of the first element
satisfying `p`, or `none` when no element does (JS returns `-1`). -/
def jsFindIndex (p : α → Bool) : List α → Option Nat
  | [] => none
  | a :: l => if p a then some 0 else (jsFindIndex p l).map (· + 1)

/-- Auxiliary for `filterIdx`: JS `Array.prototype.filter` hands the callback
the element together with its index in the original array. -/
def filterIdxAux (p : α → Nat → Bool) : Nat → List α → List α
  | _, [] => []
  | i, v :: rest =>
    if p v i then v :: filterIdxAux p (i + 1) rest else filterIdxAux p (i + 1) rest

/-- Model of `Array.prototype.filter` with an index-aware callback. -/
def filterIdx (p : α → Nat → Bool) (l : List α) : List α :=
  filterIdxAux p 0 l

/-! ## Product data model (`src/server.js`) -/

/-- A stored product record.  The fields the routes read or write are
explicit; every remaining key of the JSON body travels through the
`...productData` spread untouched and is modelled by the `extra` bag.
`createdAt` and `updatedAt` are instants (the code stores ISO strings and
compares them through `new Date`). -/
structure Product where
  id : Str
  title : Str
  createdAt : Option Nat
  updatedAt : Nat
  isActive : Bool
  customizable : Bool
  availableWeights : Option Str
  defaultWeight : Option Str
  price_range : Option Str
  weights_range : Option Str
  extra : List (Str × Str)
deriving DecidableEq, Repr

/-- A product request body, as the POST/PUT handlers receive it.  `isActive`
is carried by the body but both handlers overwrite it. -/
structure ProductBody where
  title : Str
  customizable : Bool
  isActive : Bool
  availableWeights : Option Str
  defaultWeight : Option Str
  price_range : Option Str
  weights_range : Option Str
  extra : List (Str × Str)
deriving DecidableEq, Repr

/-- Outcome of a product route, keyed by the error codes the handlers send. -/
inductive ApiResult where
  | validationError (errors : List Str)
  | duplicateTitle
  | duplicateId
  | missingId
  | productNotFound
  | created (p : Product)
  | updated (p : Product)
  | deleted (id : Str)
deriving DecidableEq, Repr

/-- The product table: `ScanCommand` returns exactly this list. -/
abbrev Store := List Product

/-- Model of `validateProductData`: title required (falsy or
whitespace-only fails) and at most 100 characters after trimming. -/
def validateProductData (b : ProductBody) : List Str :=
  (if jsTrim b.title = [] then ["Product title is required".toList] else []) ++
    (if b.title ≠ [] ∧ 100 < (jsTrim b.title).length then
      ["Title cannot exceed 100 characters".toList] else [])

/-- Model of `checkTitleExists`: scan with `FilterExpression 'title = :title'`
where `:title` is the probe title trimmed and lower-cased — stored titles are
compared verbatim.  With an `excludeId`, any match with a different id
counts. -/
def checkTitleExists (store : Store) (title : Str) (excludeId : Option Str) : Bool :=
  let probe := jsToLower (jsTrim title)
  let items := store.filter (fun p => decide (p.title = probe))
  match excludeId with
  | some eid => items.any (fun p => decide (p.id ≠ eid))
  | none => decide (0 < items.length)

/-- Model of `getProductById`: `GetItemCommand` keyed on `id`. -/
def getProductById (store : Store) (productId : Str) : Option Product :=
  store.find? (fun p => decide (p.id = productId))

/-- Model of `PutItemCommand` without a condition expression: overwrite the
record with the same key, or add the record when the key is absent. -/
def putItem (store : Store) (p : Product) : Store :=
  if store.any (fun q => decide (q.id = p.id)) then
    store.map (fun q => if q.id = p.id then p else q)
  else
    store ++ [p]

/-- Model of `POST /api/products`: validate, scan for a duplicate title,
build the record (trimmed title, `createdAt = updatedAt = now`,
`isActive = true`), strip the fields inconsistent with `customizable`, and
put it with `attribute_not_exists(id)`. `now` is the request instant and
`newId` the generated `cake_..._...` id. -/
def createProduct (store : Store) (body : ProductBody) (now : Nat) (newId : Str) :
    ApiResult × Store :=
  let errs := validateProductData body
  if errs ≠ [] then (.validationError errs, store)
  else if checkTitleExists store body.title none then (.duplicateTitle, store)
  else
    let base : Product :=
      { id := newId
        title := jsTrim body.title
        createdAt := some now
        updatedAt := now
        isActive := true
        customizable := body.customizable
        availableWeights := body.availableWeights
        defaultWeight := body.defaultWeight
        price_range := body.price_range
        weights_range := body.weights_range
        extra := body.extra }
    let p :=
      if base.customizable then
        { base with availableWeights := none, defaultWeight := none }
      else
        { base with price_range := none, weights_range := none }
    if store.any (fun q => decide (q.id = newId)) then (.duplicateId, store)
    else (.created p, store ++ [p])

/-- Model of `PUT /api/products/:id`: validate, scan for a duplicate title
excluding this id, fetch by id (`PRODUCT_NOT_FOUND` when absent), rebuild
the record preserving `createdAt`, forcing `isActive = true` and
`updatedAt = now`, strip the fields inconsistent with `customizable`, and
put it. -/
def updateProduct (store : Store) (productId : Str) (body : ProductBody) (now : Nat) :
    ApiResult × Store :=
  if productId = [] then (.missingId, store)
  else
    let errs := validateProductData body
    if errs ≠ [] then (.validationError errs, store)
    else if checkTitleExists store body.title (some productId) then (.duplicateTitle, store)
    else
      match getProductById store productId with
      | none => (.productNotFound, store)
      | some existing =>
        let base : Product :=
          { id := productId
            title := jsTrim body.title
            createdAt := existing.createdAt
            updatedAt := now
            isActive := true
            customizable := body.customizable
            availableWeights := body.availableWeights
            defaultWeight := body.defaultWeight
            price_range := body.price_range
            weights_range := body.weights_range
            extra := body.extra }
        let p :=
          if base.customizable then
            { base with availableWeights := none, defaultWeight := none }
          else
            { base with price_range := none, weights_range := none }
        (.updated p, putItem store p)

/-- Model of `DELETE /api/products/:id`: fetch by id first, then delete. -/
def deleteProduct (store : Store) (productId : Str) : ApiResult × Store :=
  if productId = [] then (.missingId, store)
  else
    match getProductById store productId with
    | none => (.productNotFound, store)
    | some _ => (.deleted productId, store.filter (fun q => decide (q.id ≠ productId)))

/-- Sort key used by the list route: `new Date(a.createdAt || 0)`, a missing
`createdAt` becoming the epoch. -/
def createdAtKey (p : Product) : Nat :=
  p.createdAt.getD 0

/-- The comparator of the list route orders `b` before `a` when
`dateB - dateA` is positive; as a relation, `a` may precede `b` exactly when
`createdAtKey b ≤ createdAtKey a`. -/
instance : DecidableRel (fun a b : Product => createdAtKey b ≤ createdAtKey a) :=
  fun _ _ => Nat.decLe _ _

/-- Model of `GET /api/products`: full scan sorted with
`products.sort((a, b) => dateB - dateA)`, newest `createdAt` first
(`Array.prototype.sort` is modelled as a stable sort by the comparator's
ordering). -/
def listProducts (store : Store) : List Product :=
  List.insertionSort (fun a b => createdAtKey b ≤ createdAtKey a) store

/-! ## Auth middleware (`src/middleware/authMiddleware.js`) -/

/-- A decoded JWT header: the fields the middleware could read.  Only `kid`
is ever consulted; `alg` is carried to show that it is not. -/
structure JwtHeader where
  alg : Str
  kid : Str
deriving DecidableEq, Repr

/-- Options handed to `jwt.verify`. -/
structure VerifyOpts where
  algorithms : List Str
  audience : Str
  issuer : Str
deriving DecidableEq, Repr

/-- The configured expected audience (`GOOGLE_AUDIENCE`). -/
def googleAudience : Str :=
  "206866346769-jeemcd408i929s8puriktea1bovb2mnb.apps.googleusercontent.com".toList

/-- The configured trusted issuer (`GOOGLE_ISSUER`). -/
def googleIssuer : Str :=
  "https://accounts.google.com".toList

/-- The options object the middleware passes to `jwt.verify`: the literal
`algorithms: ['RS256'], audience: GOOGLE_AUDIENCE, issuer: GOOGLE_ISSUER`. -/
def pinnedVerifyOpts : VerifyOpts :=
  { algorithms := ["RS256".toList]
    audience := googleAudience
    issuer := googleIssuer }

/-- Outcome of the middleware on a bearer token. -/
inductive AuthResult where
  | malformedToken
  | malformedHeader
  | invalidToken
  | authorized
deriving DecidableEq, Repr

/-- Model of `authMiddleware` on the raw bearer token.  The middleware
splits the token on dots and rejects unless there are exactly three
segments (`Invalid token: Not a JWT`); then it decodes the header once for
the debug check (`decodeDebug`, failure is `Invalid token: malformed
header`), decodes it again inside the verification `try` (`decodeMain`),
resolves the signing key from the header `kid` (`getKey`), and calls
`jwt.verify` with `pinnedVerifyOpts`; any failure in that `try` is the
generic `Unauthorized: Invalid token`.  Base64/JSON decoding, JWKS lookup
and RSA verification are environment effects, so they enter as oracle
parameters; the control flow around them is the code's. -/
def authCheck (decodeDebug decodeMain : Str → Option JwtHeader)
    (getKey : Str → Option Str) (verify : Str → Str → VerifyOpts → Bool)
    (token : Str) : AuthResult :=
  let parts := jsSplitOn '.' token
  if parts.length ≠ 3 then .malformedToken
  else
    let headerSegment := parts.headD []
    match decodeDebug headerSegment with
    | none => .malformedHeader
    | some _ =>
      match decodeMain headerSegment with
      | none => .invalidToken
      | some header =>
        match getKey header.kid with
        | none => .invalidToken
        | some key => if verify token key pinnedVerifyOpts then .authorized else .invalidToken

/-- Replace the `alg` field of every header a decoder produces: used to
state that the middleware never reads the header's `alg`. -/
def overrideAlg (decode : Str → Option JwtHeader) (a : Str) : Str → Option JwtHeader :=
  fun s => (decode s).map (fun h => { h with alg := a })

/-! ## Quick suggestions (`src/server.js`) -/

/-- A JSON value sitting under a field of the `suggestions` object: either
an array of strings or something that is not an array (skipped by the
`Array.isArray` guard). -/
inductive JVal where
  | arr (values : List Str)
  | nonArray
deriving DecidableEq, Repr

/-- The dedup callback's inner predicate, `w.toLowerCase() ===
value.toLowerCase()`. -/
def ciEq (v : Str) : Str → Bool :=
  fun w => decide (jsToLower w = jsToLower v)

/-- Model of the cleaning chain both suggestion writes apply per field:
`values.map(v => String(v).trim()).filter(v => v.length > 0)
.filter((value, index, array) => array.findIndex(w => w.toLowerCase() ===
value.toLowerCase()) === index)`. -/
def cleanValues (values : List Str) : List Str :=
  let trimmed := (values.map jsTrim).filter (fun v => decide (0 < v.length))
  filterIdx (fun v i => decide (jsFindIndex (ciEq v) trimmed = some i)) trimmed

/-- Model of the `cleanedSuggestions` object both suggestion writes build:
non-array fields are skipped and fields whose cleaned list is empty are
omitted. -/
def cleanSuggestions (raw : List (Str × JVal)) : List (Str × List Str) :=
  raw.filterMap (fun fv =>
    match fv.2 with
    | .nonArray => none
    | .arr vs =>
      let c := cleanValues vs
      if c = [] then none else some (fv.1, c))

/-- The fixed sentinel key of the single suggestion record. -/
def suggestionsSentinel : Str :=
  "all_suggestions".toList

/-- The single stored suggestion-set record. -/
structure SuggestionRecord where
  id : Str
  suggestions : List (Str × List Str)
  createdAt : Nat
  updatedAt : Nat
deriving DecidableEq, Repr

/-- Model of `POST /api/quick-suggestions`: overwrite the sentinel record
with the cleaned mapping, `createdAt = updatedAt = now`. -/
def postQuickSuggestions (raw : List (Str × JVal)) (now : Nat) : SuggestionRecord :=
  { id := suggestionsSentinel
    suggestions := cleanSuggestions raw
    createdAt := now
    updatedAt := now }

/-- Model of `PUT /api/quick-suggestions`: overwrite the sentinel record
with the cleaned mapping, keeping the existing `createdAt` when one
exists (`existingRecord.createdAt || timestamp`). -/
def putQuickSuggestions (raw : List (Str × JVal)) (now : Nat)
    (existingCreatedAt : Option Nat) : SuggestionRecord :=
  { id := suggestionsSentinel
    suggestions := cleanSuggestions raw
    createdAt := existingCreatedAt.getD now
    updatedAt := now }

/-! ## Concrete fixtures -/

/-! ## Concrete fixtures used by the theorems below -/

def rvBody1 : ProductBody :=
  { title := "Red Velvet".toList, customizable := false, isActive := true,
    availableWeights := none, defaultWeight := none,
    price_range := none, weights_range := none, extra := [] }

def rvBody2 : ProductBody :=
  { rvBody1 with title := "  red velvet  ".toList }

def rvStore1 : Store :=
  (createProduct [] rvBody1 10 "cake_1".toList).2

def stubDecode : Str → Option JwtHeader :=
  fun _ => some { alg := "none".toList, kid := "kid1".toList }

def stubKey : Str → Option Str :=
  fun _ => some ("publicKey".toList)

def acceptAll : Str → Str → VerifyOpts → Bool :=
  fun _ _ _ => true

def chocProduct : Product :=
  { id := "a".toList, title := "choc".toList, createdAt := some 1, updatedAt := 1,
    isActive := true, customizable := false, availableWeights := none,
    defaultWeight := none, price_range := none, weights_range := none, extra := [] }

def chocBody : ProductBody :=
  { title := "choc".toList, customizable := false, isActive := true,
    availableWeights := none, defaultWeight := none,
    price_range := none, weights_range := none, extra := [] }

def frameStore : Store :=
  [{ id := "p1".toList, title := "cake".toList, createdAt := some 5, updatedAt := 5,
     isActive := true, customizable := false, availableWeights := none,
     defaultWeight := none, price_range := none, weights_range := none, extra := [] }]

def frameBody : ProductBody :=
  { title := "New Cake".toList, customizable := true, isActive := false,
    availableWeights := some ("1kg".toList), defaultWeight := some ("1kg".toList),
    price_range := none, weights_range := none, extra := [] }

def frameStored : Product :=
  { id := "p1".toList, title := "New Cake".toList, createdAt := some 5, updatedAt := 50,
    isActive := true, customizable := true, availableWeights := none,
    defaultWeight := none, price_range := none, weights_range := none, extra := [] }

def noRangeBody : ProductBody :=
  { title := "Choco Fantasy".toList, customizable := true, isActive := true,
    availableWeights := none, defaultWeight := none,
    price_range := none, weights_range := none, extra := [] }

def noRangeStored : Product :=
  { id := "cake_7".toList, title := "Choco Fantasy".toList, createdAt := some 7,
    updatedAt := 7, isActive := true, customizable := true, availableWeights := none,
    defaultWeight := none, price_range := none, weights_range := none, extra := [] }

def demoT1 : Product :=
  { id := "d1".toList, title := "first".toList, createdAt := some 1, updatedAt := 1,
    isActive := true, customizable := false, availableWeights := none,
    defaultWeight := none, price_range := none, weights_range := none, extra := [] }

def demoT2 : Product :=
  { demoT1 with id := "d2".toList, title := "second".toList, createdAt := some 2 }

def demoT3 : Product :=
  { demoT1 with id := "d3".toList, title := "third".toList, createdAt := some 3 }

def demoNoDate : Product :=
  { demoT1 with id := "d0".toList, title := "undated".toList, createdAt := none }

def demoRaw : List (Str × JVal) :=
  [("flavor".toList, JVal.arr
      [" Chocolate ".toList, "chocolate".toList, "".toList, "Vanilla".toList]),
   ("empty".toList, JVal.arr ["   ".toList]),
   ("skip".toList, JVal.nonArray)]

def demoVals : List Str := ["Chocolate".toList, "Vanilla".toList]

/-! ## Helper lemmas about the JS array primitives -/

theorem jsFindIndex_eq_some (p : α → Bool) (l : List α) :
    ∀ j, jsFindIndex p l = some j → ∃ x, l[j]? = some x ∧ p x = true := by
  induction l with
  | nil => intro j h; simp [jsFindIndex] at h
  | cons a l ih =>
    intro j h
    by_cases hpa : p a
    · rw [jsFindIndex, if_pos hpa] at h
      injection h with h
      subst h
      exact ⟨a, by simp, hpa⟩
    · rw [jsFindIndex, if_neg hpa] at h
      rw [Option.map_eq_some'] at h
      obtain ⟨j', hj', hjj⟩ := h
      subst hjj
      obtain ⟨x, hx, hpx⟩ := ih j' hj'
      exact ⟨x, by simpa using hx, hpx⟩

theorem jsFindIndex_min (p : α → Bool) (l : List α) :
    ∀ j x, l[j]? = some x → p x = true → ∃ j', j' ≤ j ∧ jsFindIndex p l = some j' := by
  induction l with
  | nil => intro j x hx _; simp at hx
  | cons a l ih =>
    intro j x hx hpx
    by_cases hpa : p a
    · exact ⟨0, Nat.zero_le _, by rw [jsFindIndex, if_pos hpa]⟩
    · cases j with
      | zero =>
        simp at hx
        subst hx
        exact absurd hpx (by simp [hpa])
      | succ j =>
        simp at hx
        obtain ⟨j', hle, hfi⟩ := ih j x hx hpx
        exact ⟨j' + 1, Nat.succ_le_succ hle, by rw [jsFindIndex, if_neg hpa, hfi]; rfl⟩

theorem jsFindIndex_find? (p : α → Bool) (l : List α) :
    ∀ j x, jsFindIndex p l = some j → l[j]? = some x → l.find? p = some x := by
  induction l with
  | nil => intro j x h _; simp [jsFindIndex] at h
  | cons a l ih =>
    intro j x h hx
    by_cases hpa : p a
    · rw [jsFindIndex, if_pos hpa] at h
      injection h with h
      subst h
      simp at hx
      subst hx
      simp [List.find?, hpa]
    · rw [jsFindIndex, if_neg hpa] at h
      rw [Option.map_eq_some'] at h
      obtain ⟨j', hj', hjj⟩ := h
      subst hjj
      simp at hx
      rw [List.find?_cons_of_neg _ (by simp [hpa])]
      exact ih j' x hj' hx

theorem filterIdxAux_sublist (p : α → Nat → Bool) :
    ∀ (i : Nat) (rest : List α), List.Sublist (filterIdxAux p i rest) rest := by
  intro i rest
  induction rest generalizing i with
  | nil => simp [filterIdxAux]
  | cons v rest ih =>
    rw [filterIdxAux]
    by_cases hp : p v i
    · rw [if_pos hp]; exact (ih (i + 1)).cons₂ v
    · rw [if_neg hp]; exact (ih (i + 1)).cons v

theorem mem_filterIdxAux_findIdx (arr : List Str) :
    ∀ (i : Nat) (rest : List Str) (v : Str),
      v ∈ filterIdxAux (fun v i => decide (jsFindIndex (ciEq v) arr = some i)) i rest →
      ∃ j, i ≤ j ∧ jsFindIndex (ciEq v) arr = some j := by
  intro i rest
  induction rest generalizing i with
  | nil => intro v hv; simp [filterIdxAux] at hv
  | cons w rest ih =>
    intro v hv
    rw [filterIdxAux] at hv
    by_cases hp : decide (jsFindIndex (ciEq w) arr = some i) = true
    · rw [if_pos hp] at hv
      rcases List.mem_cons.mp hv with h | h
      · subst h
        exact ⟨i, Nat.le_refl i, of_decide_eq_true hp⟩
      · obtain ⟨j, hle, hfi⟩ := ih (i + 1) v h
        exact ⟨j, Nat.le_of_succ_le hle, hfi⟩
    · rw [if_neg hp] at hv
      obtain ⟨j, hle, hfi⟩ := ih (i + 1) v hv
      exact ⟨j, Nat.le_of_succ_le hle, hfi⟩

theorem pairwise_filterIdxAux (arr : List Str) :
    ∀ (i : Nat) (rest : List Str),
      (filterIdxAux (fun v i => decide (jsFindIndex (ciEq v) arr = some i)) i rest).Pairwise
        (fun a b => jsToLower a ≠ jsToLower b) := by
  intro i rest
  induction rest generalizing i with
  | nil => simp [filterIdxAux]
  | cons w rest ih =>
    rw [filterIdxAux]
    by_cases hp : decide (jsFindIndex (ciEq w) arr = some i) = true
    · rw [if_pos hp]
      refine List.Pairwise.cons ?_ (ih (i + 1))
      intro u hu heq
      obtain ⟨j, hle, hfi⟩ := mem_filterIdxAux_findIdx arr (i + 1) rest u hu
      have hcieq : ciEq u = ciEq w := by
        funext z
        unfold ciEq
        exact decide_eq_decide.mpr (by rw [heq])
      rw [hcieq, of_decide_eq_true hp] at hfi
      injection hfi with hij
      omega
    · rw [if_neg hp]
      exact ih (i + 1)

theorem drop_cons_getElem (arr : List Str) (i : Nat) (w : Str) (rest : List Str)
    (hdrop : arr.drop i = w :: rest) :
    arr[i]? = some w ∧ arr.drop (i + 1) = rest := by
  constructor
  · have h0 := List.getElem?_drop arr i 0
    rw [hdrop] at h0
    simpa using h0.symm
  · have h1 : List.drop 1 (List.drop i arr) = List.drop (i + 1) arr := by
      rw [List.drop_drop]
    rw [← h1, hdrop]
    rfl

theorem filterIdxAux_keepfirst (arr : List Str) :
    ∀ (i : Nat) (rest : List Str), arr.drop i = rest →
      ∀ v ∈ filterIdxAux (fun v i => decide (jsFindIndex (ciEq v) arr = some i)) i rest,
        ∃ j, jsFindIndex (ciEq v) arr = some j ∧ arr[j]? = some v := by
  intro i rest
  induction rest generalizing i with
  | nil => intro _ v hv; simp [filterIdxAux] at hv
  | cons w rest ih =>
    intro hdrop v hv
    obtain ⟨harri, hdrop'⟩ := drop_cons_getElem arr i w rest hdrop
    rw [filterIdxAux] at hv
    by_cases hp : decide (jsFindIndex (ciEq w) arr = some i) = true
    · rw [if_pos hp] at hv
      rcases List.mem_cons.mp hv with h | h
      · subst h
        exact ⟨i, of_decide_eq_true hp, harri⟩
      · exact ih (i + 1) hdrop' v h
    · rw [if_neg hp] at hv
      exact ih (i + 1) hdrop' v hv

theorem filterIdxAux_complete (arr : List Str) :
    ∀ (i : Nat) (rest : List Str), arr.drop i = rest →
      ∀ w ∈ rest, ∀ j, jsFindIndex (ciEq w) arr = some j → i ≤ j →
        ∃ v ∈ filterIdxAux (fun v i => decide (jsFindIndex (ciEq v) arr = some i)) i rest,
          jsToLower v = jsToLower w := by
  intro i rest
  induction rest generalizing i with
  | nil => intro _ w hw; simp at hw
  | cons u rest ih =>
    intro hdrop w hw j hj hij
    obtain ⟨harri, hdrop'⟩ := drop_cons_getElem arr i u rest hdrop
    have hji : j = i → jsToLower u = jsToLower w := by
      intro hjeq
      subst hjeq
      obtain ⟨x, hx, hpx⟩ := jsFindIndex_eq_some (ciEq w) arr j hj
      rw [harri] at hx
      injection hx with hx
      subst hx
      exact of_decide_eq_true hpx
    rw [filterIdxAux]
    by_cases hp : decide (jsFindIndex (ciEq u) arr = some i) = true
    · rw [if_pos hp]
      rcases List.mem_cons.mp hw with h | h
      · subst h
        exact ⟨w, List.mem_cons_self w _, rfl⟩
      · by_cases hlow : jsToLower u = jsToLower w
        · exact ⟨u, List.mem_cons_self u _, hlow⟩
        · have hne : j ≠ i := fun hjeq => hlow (hji hjeq)
          have hsucc : i + 1 ≤ j := by omega
          obtain ⟨v, hv, hlo⟩ := ih (i + 1) hdrop' w h j hj hsucc
          exact ⟨v, List.mem_cons_of_mem u hv, hlo⟩
    · rw [if_neg hp]
      have hwrest : w ∈ rest := by
        rcases List.mem_cons.mp hw with h | h
        · subst h
          exfalso
          have hre : ciEq w w = true := decide_eq_true rfl
          obtain ⟨j0, hj0le, hj0⟩ := jsFindIndex_min (ciEq w) arr i w harri hre
          rw [hj] at hj0
          injection hj0 with hj0e
          have hjeq : j = i := by omega
          rw [hjeq] at hj
          exact hp (decide_eq_true hj)
        · exact h
      have hne : j ≠ i := by
        intro hjeq
        have hlow := hji hjeq
        have hcieq : ciEq w = ciEq u := by
          funext z
          unfold ciEq
          exact decide_eq_decide.mpr (by rw [hlow])
        apply hp
        apply decide_eq_true
        rw [← hcieq, hj, hjeq]
      have hsucc : i + 1 ≤ j := by omega
      exact ih (i + 1) hdrop' w hwrest j hj hsucc

theorem cleanValues_spec (values : List Str) :
    (∀ v ∈ cleanValues values, 0 < v.length ∧ ∃ orig ∈ values, v = jsTrim orig) ∧
    (cleanValues values).Pairwise (fun a b => jsToLower a ≠ jsToLower b) ∧
    List.Sublist (cleanValues values)
      ((values.map jsTrim).filter (fun v => decide (0 < v.length))) ∧
    (∀ w ∈ (values.map jsTrim).filter (fun v => decide (0 < v.length)),
      ∃ v ∈ cleanValues values, jsToLower v = jsToLower w) ∧
    (∀ v ∈ cleanValues values,
      ((values.map jsTrim).filter (fun v => decide (0 < v.length))).find? (ciEq v) = some v) := by
  have hdrop : ((values.map jsTrim).filter (fun v => decide (0 < v.length))).drop 0 =
      (values.map jsTrim).filter (fun v => decide (0 < v.length)) := List.drop_zero _
  have hcv : cleanValues values =
      filterIdxAux (fun v i => decide (jsFindIndex (ciEq v)
          ((values.map jsTrim).filter (fun v => decide (0 < v.length))) = some i)) 0
        ((values.map jsTrim).filter (fun v => decide (0 < v.length))) := rfl
  refine ⟨?_, ?_, ?_, ?_, ?_⟩
  · intro v hv
    rw [hcv] at hv
    have hmemtr := (filterIdxAux_sublist _ 0 _).subset hv
    rw [List.mem_filter] at hmemtr
    obtain ⟨hmap, hlen⟩ := hmemtr
    rw [List.mem_map] at hmap
    obtain ⟨orig, ho, horig⟩ := hmap
    exact ⟨of_decide_eq_true hlen, orig, ho, horig.symm⟩
  · rw [hcv]
    exact pairwise_filterIdxAux _ 0 _
  · rw [hcv]
    exact filterIdxAux_sublist _ 0 _
  · intro w hw
    obtain ⟨idx, hidx⟩ := List.getElem?_of_mem hw
    obtain ⟨j', _hle, hfi⟩ := jsFindIndex_min (ciEq w) _ idx w hidx (decide_eq_true rfl)
    rw [hcv]
    exact filterIdxAux_complete _ 0 _ hdrop w hw j' hfi (Nat.zero_le _)
  · intro v hv
    rw [hcv] at hv
    obtain ⟨j, hfi, hj⟩ := filterIdxAux_keepfirst _ 0 _ hdrop v hv
    exact jsFindIndex_find? (ciEq v) _ j v hfi hj

/-! ## Claim theorems -/

/-- Claim C1: the spec claims title uniqueness is case- and whitespace-insensitive
(creating "Red Velvet" and then "  red velvet  " must fail with
DUPLICATE_TITLE and write nothing).  The code's `checkTitleExists` lower-cases
only the probe title and compares it verbatim against stored titles, which
keep their original case, so the second create succeeds and writes a second
record: the spec states the evident intent of the scan and the code misses it. -/
theorem checkTitle_misses_case_variant :
    (getProductById rvStore1 ("cake_1".toList)).map Product.title = some ("Red Velvet".toList) ∧
    checkTitleExists rvStore1 rvBody2.title none = false ∧
    (createProduct rvStore1 rvBody2 20 "cake_2".toList).1 ≠ ApiResult.duplicateTitle ∧
    ((createProduct rvStore1 rvBody2 20 "cake_2".toList).2).length = 2 := by
  decide

/-- Claim C2, counterexample: the token `"a.b."` splits into exactly three segments,
one of them empty, so by the claim it must fail with MalformedToken before any
header decoding; instead the structural check passes and the outcome depends
on the header decoder (MalformedHeader when decoding fails, a generic invalid
token otherwise), so the header IS decoded. -/
theorem empty_segment_token_reaches_header :
    (jsSplitOn '.' "a.b.".toList).length = 3 ∧
    [] ∈ jsSplitOn '.' "a.b.".toList ∧
    authCheck (fun _ => none) (fun _ => none) (fun _ => none) (fun _ _ _ => false)
      "a.b.".toList = .malformedHeader ∧
    authCheck (fun _ => some { alg := "RS256".toList, kid := "kid1".toList })
      (fun _ => none) (fun _ => none) (fun _ _ _ => false)
      "a.b.".toList = .invalidToken := by
  decide

/-- Claim C2, amended: for every raw bearer token whose dot-split does not have
exactly three segments (segments may be empty), verification fails with
MalformedToken, whatever the header decoders, key resolver and signature
verifier do — so neither header decoding nor key resolution can influence the
outcome. -/
theorem malformed_token_rejected_structurally
    (d1 d2 : Str → Option JwtHeader) (k : Str → Option Str)
    (v : Str → Str → VerifyOpts → Bool) (t : Str)
    (h : (jsSplitOn '.' t).length ≠ 3) :
    authCheck d1 d2 k v t = .malformedToken := by
  unfold authCheck
  simp [h]

theorem malformed_token_rejected_structurally_witness :
    authCheck (fun _ => some { alg := "RS256".toList, kid := "kid1".toList })
      (fun _ => some { alg := "RS256".toList, kid := "kid1".toList })
      (fun _ => some ("key".toList)) (fun _ _ _ => true) "a.b".toList = .malformedToken :=
  malformed_token_rejected_structurally _ _ _ _ _ (by decide)

/-- Claim C3: the verification options are the pinned constant (RS256 with the
configured audience and issuer); replacing the `alg` field of every decoded
header by an arbitrary value never changes the middleware's outcome, and an
authorized outcome means the verifier accepted the token under exactly the
pinned options. -/
theorem verification_algorithm_pinned
    (d1 d2 : Str → Option JwtHeader) (k : Str → Option Str)
    (v : Str → Str → VerifyOpts → Bool) (t : Str) (a : Str) :
    pinnedVerifyOpts.algorithms = ["RS256".toList] ∧
    pinnedVerifyOpts.audience = googleAudience ∧
    pinnedVerifyOpts.issuer = googleIssuer ∧
    authCheck (overrideAlg d1 a) (overrideAlg d2 a) k v t = authCheck d1 d2 k v t ∧
    (authCheck d1 d2 k v t = .authorized → ∃ key, v t key pinnedVerifyOpts = true) := by
  refine ⟨rfl, rfl, rfl, ?_, ?_⟩
  · unfold authCheck overrideAlg
    dsimp only
    by_cases h3 : (jsSplitOn '.' t).length = 3
    · rw [if_neg (by simp [h3]), if_neg (by simp [h3])]
      generalize d1 ((jsSplitOn '.' t).headD []) = o1
      generalize d2 ((jsSplitOn '.' t).headD []) = o2
      cases o1 <;> cases o2 <;> rfl
    · rw [if_pos h3, if_pos h3]
  · intro h
    unfold authCheck at h
    dsimp only at h
    split at h
    · exact absurd h (by simp)
    · split at h
      · exact absurd h (by simp)
      · split at h
        · exact absurd h (by simp)
        · split at h
          · exact absurd h (by simp)
          · rename_i key _
            split at h
            · rename_i hv
              exact ⟨key, hv⟩
            · exact absurd h (by simp)

theorem verification_algorithm_pinned_witness :
    ∃ key, acceptAll ("h.p.s".toList) key pinnedVerifyOpts = true :=
  (verification_algorithm_pinned stubDecode stubDecode stubKey acceptAll
    "h.p.s".toList ("HS256".toList)).2.2.2.2 (by decide)

/-- Claim C4, counterexample: a successful update whose body carries
`isActive = false` and `availableWeights` stores `isActive = true` and drops
`availableWeights`, so not every field other than id and createdAt is
replaced by the request body. -/
theorem update_not_full_replace :
    (updateProduct frameStore ("p1".toList) frameBody 50).1 = .updated frameStored ∧
    frameBody.isActive = false ∧ frameStored.isActive = true ∧
    frameBody.availableWeights = some ("1kg".toList) ∧
    frameStored.availableWeights = none := by
  decide

/-- Claim C4, amended: every successful update stores a record whose id is the
path id and whose createdAt is the previously stored record's createdAt,
with updatedAt set to the update time; the remaining fields come from the
request body except that the title is trimmed, isActive is forced to true,
and the variant fields inconsistent with the customizable flag are
removed. -/
theorem update_preserves_id_createdAt
    (store : Store) (productId : Str) (body : ProductBody) (now : Nat)
    (p : Product) (store' : Store)
    (h : updateProduct store productId body now = (.updated p, store')) :
    p.id = productId ∧
    (∀ existing, getProductById store productId = some existing →
      p.createdAt = existing.createdAt) ∧
    p.updatedAt = now ∧
    p.title = jsTrim body.title ∧
    p.isActive = true ∧
    p.customizable = body.customizable ∧
    p.extra = body.extra ∧
    (body.customizable = true →
      p.availableWeights = none ∧ p.defaultWeight = none ∧
      p.price_range = body.price_range ∧ p.weights_range = body.weights_range) ∧
    (body.customizable = false →
      p.price_range = none ∧ p.weights_range = none ∧
      p.availableWeights = body.availableWeights ∧ p.defaultWeight = body.defaultWeight) ∧
    store' = putItem store p := by
  unfold updateProduct at h
  dsimp only at h
  split at h
  · exact absurd h (by simp)
  · split at h
    · exact absurd h (by simp)
    · split at h
      · exact absurd h (by simp)
      · split at h
        · exact absurd h (by simp)
        · rename_i existing0 hg
          by_cases hc : body.customizable = true
          · rw [if_pos hc] at h
            have hp := ApiResult.updated.inj (congrArg Prod.fst h)
            have hs := (congrArg Prod.snd h).symm
            subst hp
            refine ⟨rfl, ?_, rfl, rfl, rfl, rfl, rfl, ?_, ?_, hs⟩
            · intro existing heq
              rw [hg] at heq
              injection heq with h2
              subst h2
              rfl
            · intro _
              exact ⟨rfl, rfl, rfl, rfl⟩
            · intro hfalse
              rw [hc] at hfalse
              exact absurd hfalse (by simp)
          · rw [if_neg hc] at h
            have hp := ApiResult.updated.inj (congrArg Prod.fst h)
            have hs := (congrArg Prod.snd h).symm
            subst hp
            refine ⟨rfl, ?_, rfl, rfl, rfl, rfl, rfl, ?_, ?_, hs⟩
            · intro existing heq
              rw [hg] at heq
              injection heq with h2
              subst h2
              rfl
            · intro htrue
              exact absurd htrue hc
            · intro _
              exact ⟨rfl, rfl, rfl, rfl⟩

theorem update_preserves_id_createdAt_witness :
    frameStored.id = "p1".toList ∧
    (∀ existing, getProductById frameStore ("p1".toList) = some existing →
      frameStored.createdAt = existing.createdAt) ∧
    frameStored.updatedAt = 50 ∧
    frameStored.title = jsTrim frameBody.title ∧
    frameStored.isActive = true ∧
    frameStored.customizable = frameBody.customizable ∧
    frameStored.extra = frameBody.extra ∧
    (frameBody.customizable = true →
      frameStored.availableWeights = none ∧ frameStored.defaultWeight = none ∧
      frameStored.price_range = frameBody.price_range ∧
      frameStored.weights_range = frameBody.weights_range) ∧
    (frameBody.customizable = false →
      frameStored.price_range = none ∧ frameStored.weights_range = none ∧
      frameStored.availableWeights = frameBody.availableWeights ∧
      frameStored.defaultWeight = frameBody.defaultWeight) ∧
    (updateProduct frameStore ("p1".toList) frameBody 50).2 = putItem frameStore frameStored :=
  update_preserves_id_createdAt frameStore ("p1".toList) frameBody 50 frameStored
    (updateProduct frameStore ("p1".toList) frameBody 50).2 (by decide)

/-- Claim C5, counterexample: updating the absent id `"b"` with a title that
collides with the stored product `"a"` returns DUPLICATE_TITLE, not
PRODUCT_NOT_FOUND, because the duplicate-title scan runs first. -/
theorem update_missing_id_can_hit_duplicate :
    getProductById [chocProduct] "b".toList = none ∧
    updateProduct [chocProduct] "b".toList chocBody 9 = (.duplicateTitle, [chocProduct]) := by
  decide

/-- Claim C5, amended: an update request on an id absent from the store that
passes validation and the duplicate-title scan returns PRODUCT_NOT_FOUND and
leaves the store unchanged. -/
theorem update_missing_id_not_found
    (store : Store) (productId : Str) (body : ProductBody) (now : Nat)
    (hid : productId ≠ [])
    (hval : validateProductData body = [])
    (hdup : checkTitleExists store body.title (some productId) = false)
    (hmiss : getProductById store productId = none) :
    updateProduct store productId body now = (.productNotFound, store) := by
  unfold updateProduct
  simp [hid, hval, hdup, hmiss]

theorem update_missing_id_not_found_witness :
    updateProduct [] "b".toList chocBody 9 = (.productNotFound, []) :=
  update_missing_id_not_found [] "b".toList chocBody 9
    (by decide) (by decide) (by decide) (by decide)

/-- Claim C6: delete is fetch-then-delete — a delete on an id absent from the
store returns PRODUCT_NOT_FOUND and leaves the store unchanged, and after a
successful delete a second delete of the same id returns PRODUCT_NOT_FOUND
rather than success. -/
theorem delete_fetch_then_delete (store : Store) (productId : Str)
    (hid : productId ≠ []) :
    (getProductById store productId = none →
      deleteProduct store productId = (.productNotFound, store)) ∧
    (∀ r store', deleteProduct store productId = (.deleted r, store') →
      deleteProduct store' productId = (.productNotFound, store')) := by
  constructor
  · intro hmiss
    unfold deleteProduct
    simp [hid, hmiss]
  · intro r store' h
    unfold deleteProduct at h ⊢
    rw [if_neg (by simp [hid])] at h ⊢
    cases hg : getProductById store productId with
    | none => rw [hg] at h; exact absurd h (by simp)
    | some p =>
      rw [hg] at h
      have hstore' : store' = store.filter (fun q => decide (q.id ≠ productId)) :=
        (congrArg Prod.snd h).symm
      have hnone : getProductById store' productId = none := by
        rw [hstore']
        unfold getProductById
        rw [List.find?_eq_none]
        intro x hx
        simp only [List.mem_filter, decide_eq_true_eq] at hx
        simp [hx.2]
      rw [hnone]

theorem delete_fetch_then_delete_witness :
    deleteProduct [chocProduct] "b".toList = (.productNotFound, [chocProduct]) ∧
    deleteProduct [] "a".toList = (.productNotFound, []) :=
  ⟨(delete_fetch_then_delete [chocProduct] "b".toList (by decide)).1 (by decide),
   (delete_fetch_then_delete [chocProduct] "a".toList (by decide)).2
     "a".toList [] (by decide)⟩

/-- Claim C7: the list route returns a permutation of the scanned snapshot sorted
by createdAt descending, where a missing createdAt counts as the epoch
(`createdAtKey` is `createdAt || 0`); products created at times 1 < 2 < 3
come back newest first, and an undated product sorts after a dated one. -/
theorem list_sorted_by_createdAt (store : Store) :
    (listProducts store).Perm store ∧
    (listProducts store).Sorted (fun a b => createdAtKey b ≤ createdAtKey a) ∧
    listProducts [demoT1, demoT2, demoT3] = [demoT3, demoT2, demoT1] ∧
    listProducts [demoNoDate, demoT1] = [demoT1, demoNoDate] := by
  refine ⟨List.perm_insertionSort _ store, ?_, by decide, by decide⟩
  haveI : IsTotal Product (fun a b => createdAtKey b ≤ createdAtKey a) :=
    ⟨fun a b => Nat.le_total _ _⟩
  haveI : IsTrans Product (fun a b => createdAtKey b ≤ createdAtKey a) :=
    ⟨fun _ _ _ hab hbc => Nat.le_trans hbc hab⟩
  exact List.sorted_insertionSort _ store

/-- Claim C8: every product that create stores has createdAt = updatedAt = the
creation time and isActive = true; when customizable is true the stored
record has no availableWeights and no defaultWeight, and when customizable is
false it has no price_range and no weights_range; and a create with
customizable = true and no price_range/weights_range still succeeds. -/
theorem create_metadata_and_strip
    (store : Store) (body : ProductBody) (now : Nat) (newId : Str)
    (p : Product) (store' : Store)
    (h : createProduct store body now newId = (.created p, store')) :
    p.createdAt = some now ∧
    p.updatedAt = now ∧
    p.isActive = true ∧
    (body.customizable = true → p.availableWeights = none ∧ p.defaultWeight = none) ∧
    (body.customizable = false → p.price_range = none ∧ p.weights_range = none) ∧
    store' = store ++ [p] ∧
    createProduct [] noRangeBody 7 "cake_7".toList = (.created noRangeStored, [noRangeStored]) := by
  unfold createProduct at h
  dsimp only at h
  split at h
  · exact absurd h (by simp)
  · split at h
    · exact absurd h (by simp)
    · split at h
      · exact absurd h (by simp)
      · by_cases hc : body.customizable = true
        · rw [if_pos hc] at h
          have hp := ApiResult.created.inj (congrArg Prod.fst h)
          have hs := (congrArg Prod.snd h).symm
          subst hp
          refine ⟨rfl, rfl, rfl, ?_, ?_, hs, by decide⟩
          · intro _
            exact ⟨rfl, rfl⟩
          · intro hfalse
            rw [hc] at hfalse
            exact absurd hfalse (by simp)
        · rw [if_neg hc] at h
          have hp := ApiResult.created.inj (congrArg Prod.fst h)
          have hs := (congrArg Prod.snd h).symm
          subst hp
          refine ⟨rfl, rfl, rfl, ?_, ?_, hs, by decide⟩
          · intro htrue
            exact absurd htrue hc
          · intro _
            exact ⟨rfl, rfl⟩

theorem create_metadata_and_strip_witness :
    noRangeStored.createdAt = some 7 ∧
    noRangeStored.updatedAt = 7 ∧
    noRangeStored.isActive = true ∧
    (noRangeBody.customizable = true →
      noRangeStored.availableWeights = none ∧ noRangeStored.defaultWeight = none) ∧
    (noRangeBody.customizable = false →
      noRangeStored.price_range = none ∧ noRangeStored.weights_range = none) ∧
    ([noRangeStored] : Store) = [] ++ [noRangeStored] ∧
    createProduct [] noRangeBody 7 "cake_7".toList = (.created noRangeStored, [noRangeStored]) :=
  create_metadata_and_strip [] noRangeBody 7 "cake_7".toList noRangeStored [noRangeStored]
    (by decide)

/-- Claim C9: both suggestion-set writes store exactly the cleaned mapping; every
stored field maps to a non-empty list of trimmed non-empty strings that is a
case-insensitively duplicate-free, order-preserving selection of the trimmed
input (each stored value is the first occurrence of its lower-cased class,
and every surviving input value has a stored representative); fields whose
cleaned list is empty — and non-array fields — are omitted. -/
theorem suggestions_cleaned (raw : List (Str × JVal)) (now : Nat)
    (existingCreatedAt : Option Nat) :
    (postQuickSuggestions raw now).suggestions = cleanSuggestions raw ∧
    (putQuickSuggestions raw now existingCreatedAt).suggestions = cleanSuggestions raw ∧
    ∀ f vs, (f, vs) ∈ cleanSuggestions raw →
      vs ≠ [] ∧
      ∃ vs0, (f, JVal.arr vs0) ∈ raw ∧ vs = cleanValues vs0 ∧
        (∀ v ∈ vs, 0 < v.length ∧ ∃ orig ∈ vs0, v = jsTrim orig) ∧
        vs.Pairwise (fun a b => jsToLower a ≠ jsToLower b) ∧
        List.Sublist vs ((vs0.map jsTrim).filter (fun v => decide (0 < v.length))) ∧
        (∀ w ∈ (vs0.map jsTrim).filter (fun v => decide (0 < v.length)),
          ∃ v ∈ vs, jsToLower v = jsToLower w) ∧
        (∀ v ∈ vs,
          ((vs0.map jsTrim).filter (fun v => decide (0 < v.length))).find? (ciEq v) =
            some v) := by
  refine ⟨rfl, rfl, ?_⟩
  intro f vs hmem
  unfold cleanSuggestions at hmem
  rw [List.mem_filterMap] at hmem
  obtain ⟨⟨f0, jv⟩, hfv, heq⟩ := hmem
  cases jv with
  | nonArray => exact absurd heq (by simp)
  | arr vs0 =>
    dsimp only at heq
    by_cases hc : cleanValues vs0 = []
    · rw [if_pos hc] at heq
      exact absurd heq (by simp)
    · rw [if_neg hc] at heq
      injection heq with heq
      obtain ⟨hf, hvs⟩ := Prod.mk.injEq .. |>.mp heq
      subst hf
      obtain ⟨h1, h2, h3, h4, h5⟩ := cleanValues_spec vs0
      refine ⟨hvs ▸ hc, vs0, hfv, hvs.symm, ?_, ?_, ?_, ?_, ?_⟩
      · rw [← hvs]; exact h1
      · rw [← hvs]; exact h2
      · rw [← hvs]; exact h3
      · intro w hw
        obtain ⟨v, hv, hlo⟩ := h4 w hw
        exact ⟨v, by rw [← hvs]; exact hv, hlo⟩
      · rw [← hvs]; exact h5

theorem suggestions_cleaned_witness :
    demoVals ≠ [] ∧
    ∃ vs0, ("flavor".toList, JVal.arr vs0) ∈ demoRaw ∧ demoVals = cleanValues vs0 ∧
      (∀ v ∈ demoVals, 0 < v.length ∧ ∃ orig ∈ vs0, v = jsTrim orig) ∧
      demoVals.Pairwise (fun a b => jsToLower a ≠ jsToLower b) ∧
      List.Sublist demoVals ((vs0.map jsTrim).filter (fun v => decide (0 < v.length))) ∧
      (∀ w ∈ (vs0.map jsTrim).filter (fun v => decide (0 < v.length)),
        ∃ v ∈ demoVals, jsToLower v = jsToLower w) ∧
      (∀ v ∈ demoVals,
        ((vs0.map jsTrim).filter (fun v => decide (0 < v.length))).find? (ciEq v) =
          some v) :=
  (suggestions_cleaned demoRaw 3 none).2.2 ("flavor".toList) demoVals (by decide)

/-- Claim C10: in the update route the duplicate-title scan runs before the
existence check, so an update on an absent id whose validated title collides
with another product's title (under `checkTitleExists`) returns
DUPLICATE_TITLE — not PRODUCT_NOT_FOUND — and writes nothing. -/
theorem update_duplicate_check_precedes_existence
    (store : Store) (productId : Str) (body : ProductBody) (now : Nat)
    (hid : productId ≠ [])
    (hval : validateProductData body = [])
    (_hmiss : getProductById store productId = none)
    (hdup : checkTitleExists store body.title (some productId) = true) :
    updateProduct store productId body now = (.duplicateTitle, store) := by
  unfold updateProduct
  simp [hid, hval, hdup]

theorem update_duplicate_check_precedes_existence_witness :
    updateProduct [chocProduct] "b".toList chocBody 9 = (.duplicateTitle, [chocProduct]) :=
  update_duplicate_check_precedes_existence [chocProduct] "b".toList chocBody 9
    (by decide) (by decide) (by decide) (by decide)
